import Mathlib

/-!
Shallow embedding of the ticker-mention aggregation and gainers-ranking core
(the tickers dashboard module).  JavaScript values are modelled as follows:

* epoch-millisecond timestamps are `Int` (JS stores them as integral doubles);
  a `Date.parse` result is `Option Int`, `none` standing for `NaN`
  (an unparseable timestamp string);
* price slots coming out of the JSON response are `Option ℚ`: `none` models
  both `null` and `undefined` (the two are interchangeable for the `??`, `==
  null` and out-of-range-index operations the module performs on them), and
  `some q` a finite number (JSON cannot carry `NaN`/`Infinity`);
* JS `Map`s are association lists with `Map.set` semantics (update in place,
  append new keys at the end), which preserves insertion order;
* `Array.prototype.sort` with a numeric/lexicographic comparator is modelled
  by `List.insertionSort` with the corresponding relation;
* the `Intl.DateTimeFormat` time-zone database is abstracted as a parameter
  `TzDb : String → TzInfo` mapping an IANA zone name to a civil-date function.
-/

/- ======================= calendar arithmetic (UTC) ======================= -/

/-- Civil date (year, month 1-12, day 1-31) from days since the Unix epoch;
the standard days-to-civil algorithm used by JS engines for the UTC getters. -/
def civilFromDays (z0 : Int) : Int × Int × Int :=
  let z := z0 + 719468
  let era := Int.fdiv z 146097
  let doe := z - era * 146097
  let yoe := Int.fdiv (doe - Int.fdiv doe 1460 + Int.fdiv doe 36524 - Int.fdiv doe 146096) 365
  let y := yoe + era * 400
  let doy := doe - (365 * yoe + Int.fdiv yoe 4 - Int.fdiv yoe 100)
  let mp := Int.fdiv (5 * doy + 2) 153
  let d := doy - Int.fdiv (153 * mp + 2) 5 + 1
  let m := mp + (if mp < 10 then 3 else -9)
  (y + (if m ≤ 2 then 1 else 0), m, d)

/-- Days since the Unix epoch from a civil date (inverse of `civilFromDays`). -/
def daysFromCivil (y0 m d : Int) : Int :=
  let y := y0 - (if m ≤ 2 then 1 else 0)
  let era := Int.fdiv y 400
  let yoe := y - era * 400
  let mp := Int.emod (m + 9) 12
  let doy := Int.fdiv (153 * mp + 2) 5 + d - 1
  let doe := yoe * 365 + Int.fdiv yoe 4 - Int.fdiv yoe 100 + doy
  era * 146097 + doe - 719468

/-- `getUTCFullYear()` of an epoch-ms instant. -/
def utcYear (ms : Int) : Int := (civilFromDays (Int.fdiv ms 86400000)).1

/-- `getUTCMonth() + 1` (1-based month) of an epoch-ms instant. -/
def utcMonth (ms : Int) : Int := (civilFromDays (Int.fdiv ms 86400000)).2.1

/-- `Date.UTC(y, m0, 1)` (ms): two-digit years map to 1900+y, out-of-range
0-based months roll over into adjacent years. -/
def dateUTC (y m0 : Int) : Int :=
  let yr := if 0 ≤ y ∧ y ≤ 99 then 1900 + y else y
  let ym := yr + Int.fdiv m0 12
  let mm := Int.emod m0 12 + 1
  daysFromCivil ym mm 1 * 86400000

/-- `startOfMonthUTC(year, month)` from the source: `Date.UTC(year, month-1, 1)`. -/
def startOfMonthUTC (year month : Int) : Int := dateUTC year (month - 1)

/-- `isInMonth(tsMs, monthStartMs)` from the source: the two instants share
UTC calendar year and month. -/
def isInMonth (tsMs monthStartMs : Int) : Bool :=
  utcYear tsMs = utcYear monthStartMs && utcMonth tsMs = utcMonth monthStartMs

/-- `isInMonth` applied to a `Date.parse` result; a `NaN` timestamp has `NaN`
UTC fields, so every comparison is false. -/
def isInMonthOpt : Option Int → Int → Bool
  | none, _ => false
  | some ts, m0 => isInMonth ts m0

/- ======================= mention records ======================= -/

/-- `user` sub-object of a stored mention record. -/
structure UserRef where
  id : Option String
  name : Option String
  deriving Repr, DecidableEq

/-- A stored mention record.  `timestamp` is the `Date.parse` result of the
stored ISO string (`none` = unparseable); `ticker`, `link`, `user` may be
absent (`undefined`/`null`). -/
structure MentionRecord where
  ticker : Option String
  timestamp : Option Int
  link : Option String
  user : Option UserRef
  deriving Repr, DecidableEq

/-- JS `x || d` for an optional string (`undefined`, `null` and `""` are
falsy). -/
def jsOrOptS (x : Option String) (d : String) : String :=
  match x with
  | none => d
  | some s => if s = "" then d else s

/-- JS `x || d` for a plain string (`""` is falsy). -/
def jsOrS (x d : String) : String := if x = "" then d else x

/-- `toUpperCase()` as a character-wise map (JS uppercases per code unit;
for the ASCII tickers this module handles the two agree). -/
def jsToUpper (s : String) : String := ⟨s.data.map Char.toUpper⟩

/-- `e.ticker?.toUpperCase()` followed by the `if (!sym) continue` guard:
`none` when the ticker is absent or uppercases to the empty string. -/
def symOf (e : MentionRecord) : Option String :=
  match e.ticker with
  | none => none
  | some t => let s := jsToUpper t; if s = "" then none else some s

/- ======================= MTD aggregation ======================= -/

/-- Per-ticker month aggregate.  `firstTs = none` models the `Infinity`
sentinel the accumulator starts from (all real timestamps compare below it);
`lastTs` starts from the `-1` sentinel exactly as in the source. -/
structure TickerAgg where
  countMTD : Nat
  firstTs : Option Int
  firstLink : String
  firstUserId : String
  firstUserName : String
  lastTs : Int
  lastLink : String
  deriving Repr, DecidableEq

/-- The accumulator a ticker starts from. -/
def TickerAgg.init : TickerAgg :=
  { countMTD := 0, firstTs := none, firstLink := "", firstUserId := "",
    firstUserName := "", lastTs := -1, lastLink := "" }

/-- `ts < cur.firstTs` where `firstTs` may be the `Infinity` sentinel. -/
def ltFirst (ts : Int) : Option Int → Bool
  | none => true
  | some v => ts < v

/-- The body of the aggregation loop for one qualifying record. -/
def updateAgg (e : MentionRecord) (ts : Int) (cur0 : TickerAgg) : TickerAgg :=
  let cur1 := { cur0 with countMTD := cur0.countMTD + 1 }
  let cur2 :=
    if ltFirst ts cur1.firstTs then
      { cur1 with
        firstTs := some ts
        firstLink := jsOrOptS e.link ""
        firstUserId := jsOrOptS (e.user.bind (·.id)) ""
        firstUserName := jsOrOptS (e.user.bind (·.name)) "" }
    else cur1
  if ts > cur2.lastTs then
    { cur2 with lastTs := ts, lastLink := jsOrOptS e.link "" }
  else cur2

/-- Association-list model of the `byTicker` JS `Map`. -/
abbrev AggMap := List (String × TickerAgg)

/-- `Map.get`. -/
def mapGet (m : AggMap) (k : String) : Option TickerAgg :=
  (m.find? (fun p => p.1 = k)).map (·.2)

/-- `Map.set`: update in place, append new keys. -/
def mapSet (m : AggMap) (k : String) (v : TickerAgg) : AggMap :=
  match m with
  | [] => [(k, v)]
  | (k', v') :: rest => if k' = k then (k, v) :: rest else (k', v') :: mapSet rest k v

/-- One iteration of the `for (const e of mtd)` loop.  The `mtd` filter has
already established that `e.timestamp` parses, so the `none` branch is
unreachable there. -/
def aggStep (m : AggMap) (e : MentionRecord) : AggMap :=
  match symOf e with
  | none => m
  | some sym =>
    match e.timestamp with
    | none => m
    | some ts => mapSet m sym (updateAgg e ts ((mapGet m sym).getD TickerAgg.init))

/-- Per-user first-mention counter value. -/
structure UserCount where
  name : String
  count : Nat
  deriving Repr, DecidableEq

/-- Association-list model of the `firstByUserCounts` JS `Map`. -/
abbrev UserMap := List (String × UserCount)

/-- `Map.get` for the user map. -/
def umapGet (m : UserMap) (k : String) : Option UserCount :=
  (m.find? (fun p => p.1 = k)).map (·.2)

/-- `Map.set` for the user map. -/
def umapSet (m : UserMap) (k : String) (v : UserCount) : UserMap :=
  match m with
  | [] => [(k, v)]
  | (k', v') :: rest => if k' = k then (k, v) :: rest else (k', v') :: umapSet rest k v

/-- The `firstByUserCounts` pass over the finished ticker map. -/
def buildUserCounts (byTicker : AggMap) : UserMap :=
  byTicker.foldl
    (fun m p =>
      let v := p.2
      if v.firstUserId = "" then m
      else
        let e := (umapGet m v.firstUserId).getD { name := jsOrS v.firstUserName "", count := 0 }
        let e := { e with count := e.count + 1 }
        let e := if e.name = "" && !(v.firstUserName = "") then { e with name := v.firstUserName } else e
        umapSet m v.firstUserId e)
    []

/-- `buildMonthAgg(entries, selectedMonth)`; the source splits the
`"YYYY-MM"` month key into its numeric year and month, taken here as the two
`Int` arguments. -/
def buildMonthAgg (entries : List MentionRecord) (year month : Int) : AggMap × UserMap :=
  let monthStart := startOfMonthUTC year month
  let mtd := entries.filter (fun e => isInMonthOpt e.timestamp monthStart)
  let byTicker := mtd.foldl aggStep []
  (byTicker, buildUserCounts byTicker)

/- ======================= available months ======================= -/

/-- `String(n).padStart(2, "0")` for the small non-negative numbers produced
by the UTC month getter. -/
def pad2 (n : Int) : String :=
  if 0 ≤ n ∧ n < 10 then "0" ++ toString n else toString n

/-- The month key `getAvailableMonths` derives from one entry:
`"{getUTCFullYear()}-{pad2 (getUTCMonth()+1)}"`; an unparseable timestamp has
`NaN` UTC fields, which stringify to the literal `"NaN-NaN"`. -/
def monthKeyOf (e : MentionRecord) : String :=
  match e.timestamp with
  | none => "NaN-NaN"
  | some ms => toString (utcYear ms) ++ "-" ++ pad2 (utcMonth ms)

/-- JS `Set` insertion (first occurrence kept, insertion order preserved). -/
def setInsert (s : List String) (k : String) : List String :=
  if k ∈ s then s else s ++ [k]

/-- Lexicographic comparison of char lists by code point; for the ASCII
digit/letter keys this module compares, it coincides with both JS string
`<` (UTF-16 code units) and the `localeCompare` collation direction. -/
def strLtB : List Char → List Char → Bool
  | [], [] => false
  | [], _ :: _ => true
  | _ :: _, [] => false
  | c :: cs, d :: ds => if c < d then true else if d < c then false else strLtB cs ds

/-- JS string `a < b`. -/
def jsLt (a b : String) : Bool := strLtB a.data b.data

/-- JS string `a >= b` (also the direction `b.localeCompare(a) ≤ 0` sorts by). -/
def jsGeB (a b : String) : Bool := !jsLt a b

/-- `getAvailableMonths(entries)`: distinct month keys sorted descending;
`[...months].sort((a, b) => b.localeCompare(a))` is the descending
lexicographic sort. -/
def getAvailableMonths (entries : List MentionRecord) : List String :=
  let months := entries.foldl (fun s e => setInsert s (monthKeyOf e)) []
  List.insertionSort (fun a b => jsGeB a b = true) months

/- ======================= price series (Yahoo chart) ======================= -/

/-- One IANA time zone, abstracted as the civil date
`Intl.DateTimeFormat({timeZone})` renders an epoch-ms instant to. -/
structure TzInfo where
  civil : Int → Int × Int × Int

/-- The platform time-zone database: IANA name to zone behaviour. -/
abbrev TzDb := String → TzInfo

/-- Format a civil triple the way the `en-CA` formatter does:
`"YYYY-MM-DD"` (numeric year, 2-digit month and day). -/
def fmtYMD (c : Int × Int × Int) : String :=
  toString c.1 ++ "-" ++ pad2 c.2.1 ++ "-" ++ pad2 c.2.2

/-- `localYMD(ts, tz)` from the source. -/
def localYMD (db : TzDb) (ts : Int) (tz : String) : String :=
  fmtYMD ((db tz).civil ts)

/-- `monthFirstYMD(tz, year, month)`: the zone-local year and month of the
month's UTC start, with a literal `"-01"` day. -/
def monthFirstYMD (db : TzDb) (tz : String) (year month : Int) : String :=
  let c := (db tz).civil (startOfMonthUTC year month)
  toString c.1 ++ "-" ++ pad2 c.2.1 ++ "-01"

/-- Parsed price series, the value cached by `getYahooChart`. -/
structure Chart where
  timestamps : List Int
  opens : List (Option ℚ)
  closes : List (Option ℚ)
  lastClose : Option ℚ
  lastPrice : Option ℚ
  tz : String

/-- `indicators.quote[0]` of the raw response (fields may be absent). -/
structure RawQuote where
  openArr : Option (List (Option ℚ))
  closeArr : Option (List (Option ℚ))

/-- `chart.result[0]` of the raw response.  The `Array.isArray` guards of the
source can only fail on untyped JSON; in this typed model the arrays are
lists by construction, so that throw path is vacuous. -/
structure RawResult where
  timestamp : Option (List Int)
  quote : Option RawQuote
  adjclose : Option (List (Option ℚ))
  regularMarketPrice : Option ℚ
  exchangeTimezoneName : Option String

/-- `[...closes].reverse().find((v) => v != null && isFinite(v))`. -/
def lastFinite (l : List (Option ℚ)) : Option ℚ :=
  ((l.reverse.find? (fun v => v.isSome)).getD none)

/-- JS `a ?? b` on nullable numbers. -/
def jsCoalesce (a b : Option ℚ) : Option ℚ :=
  match a with
  | some v => some v
  | none => b

/-- The parsing of a present `chart.result[0]` into the cached series
(source lines after the `if (!r) throw`). -/
def parseChart (r : RawResult) : Chart :=
  let ts := ((r.timestamp).getD []).map (· * 1000)
  let q := r.quote.getD { openArr := none, closeArr := none }
  let closes0 := (q.closeArr).getD []
  let opens := (q.openArr).getD []
  let closes :=
    if closes0.isEmpty then
      match r.adjclose with
      | some a => a
      | none => closes0
    else closes0
  let lastClose := lastFinite closes
  let lastPrice := jsCoalesce r.regularMarketPrice lastClose
  let tz := jsOrOptS r.exchangeTimezoneName "America/New_York"
  { timestamps := ts, opens := opens, closes := closes,
    lastClose := lastClose, lastPrice := lastPrice, tz := tz }

/-- `days = Math.max(1, Math.floor((now - (fromTsMs || Date.now())) / 86400000))`;
`fromTsMs` is falsy when absent, `NaN`, or exactly `0`. -/
def chartDaysOf (now : Int) (fromTsMs : Option Int) : Int :=
  let f := match fromTsMs with
    | none => now
    | some t => if t = 0 then now else t
  max 1 (Int.fdiv (now - f) 86400000)

/-- The range-bucket ternary chain of `getYahooChart`. -/
def chartRange (days : Int) : String :=
  if days ≤ 30 then "1mo" else if days ≤ 62 then "3mo" else if days ≤ 370 then "1y" else "5y"

/-- Association-list model of the process-wide `chartCache` JS `Map`. -/
abbrev Cache := List (String × Chart)

/-- `chartCache.get`. -/
def cacheGet (m : Cache) (k : String) : Option Chart :=
  (m.find? (fun p => p.1 = k)).map (·.2)

/-- `chartCache.set`. -/
def cacheSet (m : Cache) (k : String) (v : Chart) : Cache :=
  match m with
  | [] => [(k, v)]
  | (k', v') :: rest => if k' = k then (k, v) :: rest else (k', v') :: cacheSet rest k v

/-- The network: symbol and range to either a transport/`!r` failure (the
source throws in both cases) or the response's `result[0]`. -/
abbrev Oracle := String → String → Except String RawResult

/-- `getYahooChart(symbol, fromTsMs)` with the cache passed (and returned)
explicitly and the HTTP GET abstracted as `oracle`. -/
def getYahooChart (oracle : Oracle) (now : Int) (cache : Cache) (symbol : String)
    (fromTsMs : Option Int) : Except String Chart × Cache :=
  let days := chartDaysOf now fromTsMs
  let range := chartRange days
  let cacheKey := symbol ++ "|" ++ range
  match cacheGet cache cacheKey with
  | some ch => (Except.ok ch, cache)
  | none =>
    match oracle symbol range with
    | Except.error e => (Except.error e, cache)
    | Except.ok r =>
      let out := parseChart r
      (Except.ok out, cacheSet cache cacheKey out)

/- ======================= basis/latest resolver ======================= -/

/-- The two anchor policies of `fetchBasisAndLatest`. -/
inductive Anchor
  | mention
  | month
  deriving Repr, DecidableEq

/-- The two basis/latest modes. -/
inductive Mode
  | oc
  | cc
  deriving Repr, DecidableEq

/-- The target date of `pickStartIndex`: the zone-local first day of the
selected month (`anchor === "month"`) or the zone-local date of the mention. -/
def pickTargetYMD (db : TzDb) (ch : Chart) (anchor : Anchor) (mentionTs : Int)
    (year month : Int) : String :=
  match anchor with
  | Anchor.month => monthFirstYMD db ch.tz year month
  | Anchor.mention => localYMD db mentionTs ch.tz

/-- `pickStartIndex(ch, anchor, mentionTs, selectedMonth)`: first index whose
zone-local date string compares `>=` the target date, defaulting to 0. -/
def pickStartIndex (db : TzDb) (ch : Chart) (anchor : Anchor) (mentionTs : Int)
    (year month : Int) : Nat :=
  match ch.timestamps.findIdx?
      (fun t => jsGeB (localYMD db t ch.tz) (pickTargetYMD db ch anchor mentionTs year month)) with
  | some i => i
  | none => 0

/-- JS element access `arr[i]` on a nullable-number array: out-of-range reads
give `undefined`, which the module treats exactly like `null`. -/
def jsGet (l : List (Option ℚ)) (i : Nat) : Option ℚ := l.getD i none

/-- The start-price gap-fill loop: keep the value at `idx` when present,
otherwise the nearest later present value of the same field (the loop runs
only while the current value is nullish/non-finite and breaks at the first
finite hit). -/
def gapFill (l : List (Option ℚ)) (idx : Nat) : Option ℚ :=
  match jsGet l idx with
  | some v => some v
  | none => ((l.drop idx).filterMap id).head?

/-- JS `x > 0` on a nullable number: `null`/`undefined`/`NaN` compare false. -/
def jsGt0 : Option ℚ → Bool
  | none => false
  | some q => q > 0

/-- The pure tail of `fetchBasisAndLatest` once the chart is in hand
(source: index pick, gap-fill, the two throw guards, and the mode-directed
`??` selections). -/
def resolveFromChart (db : TzDb) (ch : Chart) (anchor : Anchor) (mode : Mode)
    (mentionTs : Int) (year month : Int) : Except String (Option ℚ × Option ℚ) :=
  let idx := pickStartIndex db ch anchor mentionTs year month
  let startOpen := gapFill ch.opens idx
  let startClose := gapFill ch.closes idx
  let lastClose := ch.lastClose
  let lastPrice := ch.lastPrice
  if !(jsGt0 startOpen) && !(jsGt0 startClose) then Except.error "bad start prices"
  else if !(jsGt0 lastPrice) && !(jsGt0 lastClose) then Except.error "bad latest price"
  else
    let basis := match mode with
      | Mode.cc => jsCoalesce startClose startOpen
      | Mode.oc => jsCoalesce startOpen startClose
    let latest := match mode with
      | Mode.cc => jsCoalesce lastClose lastPrice
      | Mode.oc => jsCoalesce lastPrice lastClose
    Except.ok (basis, latest)

/-- `fetchBasisAndLatest(symbol, mentionTs, opts, selectedMonth)` with cache
and clock explicit: fetch (anchored at the month start or the mention), then
resolve. -/
def fetchBasisAndLatest (db : TzDb) (oracle : Oracle) (now : Int) (cache : Cache)
    (symbol : String) (mentionTs : Int) (anchor : Anchor) (mode : Mode)
    (year month : Int) : Except String (Option ℚ × Option ℚ) × Cache :=
  let fromTs := match anchor with
    | Anchor.month => startOfMonthUTC year month
    | Anchor.mention => mentionTs
  match getYahooChart oracle now cache symbol (some fromTs) with
  | (Except.error e, c) => (Except.error e, c)
  | (Except.ok ch, c) => (resolveFromChart db ch anchor mode mentionTs year month, c)

/- ======================= computeGainers ======================= -/

/-- The per-ticker info records `computeGainers` consumes (built from the
aggregates; only the fields the ranking core reads are modelled). -/
structure TickerInfo where
  symbol : String
  firstTs : Int
  firstLink : String
  firstUserId : String
  firstUserName : String
  deriving Repr, DecidableEq

/-- A ranked row: the info spread together with `basis`, `latest`, `pct`. -/
structure GainResult where
  info : TickerInfo
  basis : Option ℚ
  latest : Option ℚ
  pct : ℚ
  deriving Repr, DecidableEq

/-- JS numeric coercion of a nullable number (`null` → 0) as used by the
arithmetic in `pct`; on the reachable inputs both values are non-null.
Division is the totalized `ℚ` division (the source would produce a non-finite
`pct` for a zero basis). -/
def toNum (x : Option ℚ) : ℚ := x.getD 0

/-- The options object of `computeGainers` (after destructuring defaults). -/
structure GainOpts where
  limitTickers : Int
  concurrency : Int
  anchor : Anchor
  mode : Mode

/-- The per-item worker of `computeGainers`: resolve, attach `pct`, and map a
throw to the `null` placeholder (`catch { return null }`). -/
def gainWorker (resolve : TickerInfo → Except String (Option ℚ × Option ℚ))
    (info : TickerInfo) : Option GainResult :=
  match resolve info with
  | Except.error _ => none
  | Except.ok (b, l) =>
    some { info := info, basis := b, latest := l,
           pct := (toNum l - toNum b) / toNum b * 100 }

/-- `computeGainers(items, opts)`, with the resolver abstracted.  `mapLimit`
fills a positional results array (failures as `null`) independently per item,
so its denotation is an element-wise map; the concurrency clamp is kept for
fidelity but does not affect the value.  `.filter(Boolean)` drops the nulls
and `.sort((a, b) => b.pct - a.pct)` sorts descending by `pct`. -/
def computeGainers (resolve : TickerInfo → Except String (Option ℚ × Option ℚ))
    (items : List TickerInfo) (opts : GainOpts) : List GainResult :=
  if items.isEmpty then [] else
  let limitTickers := if opts.limitTickers ≤ 0 then 50 else opts.limitTickers
  let _concurrency :=
    if opts.concurrency ≤ 0 then 3 else if opts.concurrency > 10 then 10 else opts.concurrency
  let subset := items.take limitTickers.toNat
  let out := subset.map (gainWorker resolve)
  List.insertionSort (fun a b => b.pct ≤ a.pct) (out.filterMap id)

/-- The UTC qualification test the month aggregation applies to a record. -/
def qualifies (year month : Int) (e : MentionRecord) : Bool :=
  isInMonthOpt e.timestamp (startOfMonthUTC year month)

/-- Count stored for a key (0 when the key is absent). -/
def countFor (m : AggMap) (T : String) : Nat :=
  match mapGet m T with
  | none => 0
  | some a => a.countMTD

/-- The record test under which one loop iteration bumps the count of `T`. -/
def hitsKey (T : String) (e : MentionRecord) : Bool :=
  symOf e == some T && e.timestamp.isSome

/-- The per-aggregate invariant: a set first timestamp that does not exceed
the last timestamp. -/
def aggWF (a : TickerAgg) : Prop := ∃ f, a.firstTs = some f ∧ f ≤ a.lastTs

/- ======================= concrete fixtures ======================= -/

/-- A time-zone database where every zone renders instants as UTC civil
dates; used for concrete evaluations. -/
def utcTzDb : TzDb := fun _ => ⟨fun ms => civilFromDays (Int.fdiv ms 86400000)⟩

/-- A one-day chart fixture with finite positive prices. -/
def chartFixture : Chart :=
  { timestamps := [0], opens := [some 7], closes := [some 8],
    lastClose := some 8, lastPrice := some 9, tz := "UTC" }

/-- A one-entry cache fixture holding `chartFixture` under `"AAPL|1mo"`. -/
def cacheFixture : Cache := [("AAPL|1mo", chartFixture)]

/-- An oracle fixture that always fails (never consulted on cache hits). -/
def failOracle : Oracle := fun _ _ => Except.error "network"

/-- The `symbol|range` cache key `getYahooChart` uses for a request. -/
def chartCacheKey (symbol : String) (now : Int) (fromTsMs : Option Int) : String :=
  symbol ++ "|" ++ chartRange (chartDaysOf now fromTsMs)

instance : IsTotal GainResult (fun a b => b.pct ≤ a.pct) :=
  ⟨fun a b => le_total b.pct a.pct⟩

instance : IsTrans GainResult (fun a b => b.pct ≤ a.pct) :=
  ⟨fun _ _ _ h1 h2 => le_trans h2 h1⟩

/-- The effective ticker limit after `computeGainers`' clamp. -/
def effLimit (opts : GainOpts) : Int :=
  if opts.limitTickers ≤ 0 then 50 else opts.limitTickers


/- ======================= aggregation lemmas ======================= -/

theorem mapGet_mapSet_self (m : AggMap) (k : String) (v : TickerAgg) :
    mapGet (mapSet m k v) k = some v := by
  induction m with
  | nil => simp [mapSet, mapGet]
  | cons p rest ih =>
    obtain ⟨k', v'⟩ := p
    by_cases h : k' = k
    · subst h
      simp [mapSet, mapGet]
    · simp only [mapSet, if_neg h]
      simpa [mapGet, List.find?_cons, h] using ih

theorem mapGet_mapSet_ne (m : AggMap) (k k' : String) (v : TickerAgg) (h : k' ≠ k) :
    mapGet (mapSet m k v) k' = mapGet m k' := by
  induction m with
  | nil => simp [mapSet, mapGet, List.find?, Ne.symm h]
  | cons p rest ih =>
    obtain ⟨k₀, v₀⟩ := p
    by_cases h₀ : k₀ = k
    · subst h₀
      simp [mapSet, mapGet, List.find?_cons, Ne.symm h]
    · simp only [mapSet, if_neg h₀]
      by_cases h₁ : k₀ = k'
      · subst h₁
        simp [mapGet, List.find?_cons]
      · simp only [mapGet, List.find?_cons] at *
        have : ¬ (decide (k₀ = k') = true) := by simp [h₁]
        simp only [this, if_neg, decide_eq_true_eq] at *
        simpa [h₁] using ih

theorem countMTD_updateAgg (e : MentionRecord) (ts : Int) (a : TickerAgg) :
    (updateAgg e ts a).countMTD = a.countMTD + 1 := by
  unfold updateAgg
  dsimp only
  split <;> split <;> rfl

theorem countFor_aggStep_hit (m : AggMap) (e : MentionRecord) (T : String)
    (h : hitsKey T e = true) : countFor (aggStep m e) T = countFor m T + 1 := by
  unfold hitsKey at h
  rw [Bool.and_eq_true] at h
  obtain ⟨hsym, hts⟩ := h
  rw [beq_iff_eq] at hsym
  obtain ⟨ts, hts'⟩ := Option.isSome_iff_exists.mp hts
  unfold aggStep
  rw [hsym, hts']
  rw [countFor, mapGet_mapSet_self]
  show (updateAgg e ts ((mapGet m T).getD TickerAgg.init)).countMTD = countFor m T + 1
  rw [countMTD_updateAgg]
  cases hmg : mapGet m T with
  | none => simp [countFor, hmg, TickerAgg.init]
  | some a => simp [countFor, hmg]

theorem countFor_aggStep_miss (m : AggMap) (e : MentionRecord) (T : String)
    (h : hitsKey T e = false) : countFor (aggStep m e) T = countFor m T := by
  unfold aggStep
  cases hsym : symOf e with
  | none => rfl
  | some sym =>
    cases hts : e.timestamp with
    | none => rfl
    | some ts =>
      have hne : sym ≠ T := by
        intro hEq
        subst hEq
        simp [hitsKey, hsym, hts] at h
      rw [countFor, countFor, mapGet_mapSet_ne _ _ _ _ (Ne.symm hne)]

theorem countFor_foldl (l : List MentionRecord) (m : AggMap) (T : String) :
    countFor (l.foldl aggStep m) T = countFor m T + (l.filter (hitsKey T)).length := by
  induction l generalizing m with
  | nil => simp
  | cons e rest ih =>
    rw [List.foldl_cons, ih]
    cases h : hitsKey T e with
    | true => rw [countFor_aggStep_hit m e T h]; simp [List.filter_cons, h]; omega
    | false => rw [countFor_aggStep_miss m e T h]; simp [List.filter_cons, h]

theorem mapGet_aggStep_miss (m : AggMap) (e : MentionRecord) (T : String)
    (h : hitsKey T e = false) : mapGet (aggStep m e) T = mapGet m T := by
  unfold aggStep
  cases hsym : symOf e with
  | none => rfl
  | some sym =>
    cases hts : e.timestamp with
    | none => rfl
    | some ts =>
      have hne : sym ≠ T := by
        intro hEq
        subst hEq
        simp [hitsKey, hsym, hts] at h
      rw [mapGet_mapSet_ne _ _ _ _ (Ne.symm hne)]

theorem mapGet_aggStep_hit (m : AggMap) (e : MentionRecord) (T : String)
    (h : hitsKey T e = true) : (mapGet (aggStep m e) T).isSome = true := by
  unfold hitsKey at h
  rw [Bool.and_eq_true] at h
  obtain ⟨hsym, hts⟩ := h
  rw [beq_iff_eq] at hsym
  obtain ⟨ts, hts'⟩ := Option.isSome_iff_exists.mp hts
  unfold aggStep
  rw [hsym, hts', mapGet_mapSet_self]
  rfl

theorem mapGet_foldl_isSome (l : List MentionRecord) (m : AggMap) (T : String) :
    (mapGet (l.foldl aggStep m) T).isSome = true ↔
      (mapGet m T).isSome = true ∨ ∃ e ∈ l, hitsKey T e = true := by
  induction l generalizing m with
  | nil => simp
  | cons e rest ih =>
    rw [List.foldl_cons, ih]
    cases h : hitsKey T e with
    | true =>
      have : (mapGet (aggStep m e) T).isSome = true := mapGet_aggStep_hit m e T h
      simp only [this, true_or, true_iff, iff_true]
      right
      exact ⟨e, List.mem_cons_self e rest, h⟩
    | false =>
      rw [mapGet_aggStep_miss m e T h]
      constructor
      · rintro (hs | ⟨e', he', hk⟩)
        · exact Or.inl hs
        · exact Or.inr ⟨e', List.mem_cons_of_mem _ he', hk⟩
      · rintro (hs | ⟨e', he', hk⟩)
        · exact Or.inl hs
        · rcases List.mem_cons.mp he' with rfl | he''
          · rw [hk] at h; cases h
          · exact Or.inr ⟨e', he'', hk⟩

theorem qualifies_timestamp_isSome (year month : Int) (e : MentionRecord)
    (h : qualifies year month e = true) : e.timestamp.isSome = true := by
  unfold qualifies at h
  cases hts : e.timestamp with
  | none => rw [hts] at h; cases h
  | some ts => rfl

theorem byTicker_eq (entries : List MentionRecord) (year month : Int) :
    (buildMonthAgg entries year month).1 =
      (entries.filter (qualifies year month)).foldl aggStep [] := rfl

/-- C1 — every record with a valid ticker `T` and timestamp in the selected
UTC month contributes: `T` is present in the ticker map and its `countMTD` is
exactly the number of qualifying records whose (case-insensitively collapsed)
uppercased ticker is `T`. -/
theorem c1_month_aggregation_counts (entries : List MentionRecord) (year month : Int)
    (T : String)
    (h : ∃ e ∈ entries, qualifies year month e = true ∧ symOf e = some T) :
    ∃ agg, mapGet (buildMonthAgg entries year month).1 T = some agg ∧
      agg.countMTD =
        (entries.filter (fun e => qualifies year month e && symOf e == some T)).length := by
  obtain ⟨e, he, hq, hsym⟩ := h
  rw [byTicker_eq]
  have hhit : hitsKey T e = true := by
    unfold hitsKey
    rw [hsym, qualifies_timestamp_isSome year month e hq]
    simp
  have hmem : e ∈ entries.filter (qualifies year month) := List.mem_filter.mpr ⟨he, hq⟩
  have hsome : (mapGet ((entries.filter (qualifies year month)).foldl aggStep []) T).isSome = true := by
    rw [mapGet_foldl_isSome]
    exact Or.inr ⟨e, hmem, hhit⟩
  obtain ⟨agg, hagg⟩ := Option.isSome_iff_exists.mp hsome
  refine ⟨agg, hagg, ?_⟩
  have h1 : countFor ((entries.filter (qualifies year month)).foldl aggStep []) T
      = agg.countMTD := by
    unfold countFor
    rw [hagg]
  rw [countFor_foldl] at h1
  have h0 : countFor [] T = 0 := rfl
  rw [h0, Nat.zero_add] at h1
  rw [h1.symm, List.filter_filter]
  congr 1
  apply List.filter_congr
  intro x hx
  cases hq' : qualifies year month x with
  | false => simp [hitsKey, hq']
  | true =>
    have := qualifies_timestamp_isSome year month x hq'
    simp [hitsKey, hq', this]

/-- Witness for `c1_month_aggregation_counts`: two parsed March-1970-free
records in January 1970 under case variation. -/
theorem c1_month_aggregation_counts_witness :
    (∃ e ∈ [(⟨some "xyz", some 0, some "L1", some ⟨some "u1", some "Ann"⟩⟩ : MentionRecord),
            ⟨some "XYZ", some 1000, some "L2", some ⟨some "u2", some "Bo"⟩⟩],
        qualifies 1970 1 e = true ∧ symOf e = some "XYZ") ∧
      ∃ agg, mapGet (buildMonthAgg
          [⟨some "xyz", some 0, some "L1", some ⟨some "u1", some "Ann"⟩⟩,
           ⟨some "XYZ", some 1000, some "L2", some ⟨some "u2", some "Bo"⟩⟩] 1970 1).1 "XYZ"
          = some agg ∧
        agg.countMTD =
          (([(⟨some "xyz", some 0, some "L1", some ⟨some "u1", some "Ann"⟩⟩ : MentionRecord),
             ⟨some "XYZ", some 1000, some "L2", some ⟨some "u2", some "Bo"⟩⟩]).filter
            (fun e => qualifies 1970 1 e && symOf e == some "XYZ")).length :=
  ⟨by decide, c1_month_aggregation_counts _ 1970 1 "XYZ" (by decide)⟩

theorem aggWF_updateAgg (e : MentionRecord) (ts : Int) (a : TickerAgg)
    (h : a = TickerAgg.init ∨ aggWF a) : aggWF (updateAgg e ts a) := by
  unfold updateAgg
  dsimp only
  split_ifs with h1 h2 h2
  · exact ⟨ts, rfl, le_refl ts⟩
  · exact ⟨ts, rfl, le_of_not_lt h2⟩
  · cases hf : a.firstTs with
    | none => rw [hf] at h1; simp [ltFirst] at h1
    | some v =>
      have hwf : aggWF a := by
        rcases h with rfl | hwf
        · rw [show TickerAgg.init.firstTs = none from rfl] at hf; cases hf
        · exact hwf
      obtain ⟨f, hf', hle⟩ := hwf
      rw [hf] at hf'
      obtain rfl : v = f := by injection hf'
      exact ⟨v, rfl, le_of_lt (lt_of_le_of_lt hle h2)⟩
  · cases hf : a.firstTs with
    | none => rw [hf] at h1; simp [ltFirst] at h1
    | some v =>
      have hwf : aggWF a := by
        rcases h with rfl | hwf
        · rw [show TickerAgg.init.firstTs = none from rfl] at hf; cases hf
        · exact hwf
      obtain ⟨f, hf', hle⟩ := hwf
      rw [hf] at hf'
      obtain rfl : v = f := by injection hf'
      exact ⟨v, rfl, hle⟩

theorem mem_mapSet (m : AggMap) (k : String) (v : TickerAgg) (p : String × TickerAgg)
    (h : p ∈ mapSet m k v) : p = (k, v) ∨ p ∈ m := by
  induction m with
  | nil => simpa [mapSet] using h
  | cons q rest ih =>
    obtain ⟨k₀, v₀⟩ := q
    by_cases h₀ : k₀ = k
    · subst h₀
      simp only [mapSet, if_pos] at h
      rcases List.mem_cons.mp h with rfl | hm
      · exact Or.inl rfl
      · exact Or.inr (List.mem_cons_of_mem _ hm)
    · simp only [mapSet, if_neg h₀] at h
      rcases List.mem_cons.mp h with rfl | hm
      · exact Or.inr (List.mem_cons_self _ _)
      · rcases ih hm with h' | h'
        · exact Or.inl h'
        · exact Or.inr (List.mem_cons_of_mem _ h')

theorem mapGet_mem (m : AggMap) (k : String) (v : TickerAgg)
    (h : mapGet m k = some v) : (k, v) ∈ m := by
  unfold mapGet at h
  cases hf : m.find? (fun p => p.1 = k) with
  | none => rw [hf] at h; cases h
  | some p =>
    rw [hf] at h
    obtain ⟨k₀, v₀⟩ := p
    have hmem := List.mem_of_find?_eq_some hf
    have hkey : (decide (k₀ = k)) = true := by
      have := List.find?_some hf
      simpa using this
    rw [decide_eq_true_eq] at hkey
    subst hkey
    have : v₀ = v := by injection h
    subst this
    exact hmem

theorem aggWF_foldl (l : List MentionRecord) (m : AggMap)
    (h : ∀ p ∈ m, aggWF p.2) : ∀ p ∈ l.foldl aggStep m, aggWF p.2 := by
  induction l generalizing m with
  | nil => simpa using h
  | cons e rest ih =>
    rw [List.foldl_cons]
    apply ih
    intro p hp
    unfold aggStep at hp
    cases hsym : symOf e with
    | none => rw [hsym] at hp; exact h p hp
    | some sym =>
      rw [hsym] at hp
      cases hts : e.timestamp with
      | none => rw [hts] at hp; exact h p hp
      | some ts =>
        rw [hts] at hp
        rcases mem_mapSet _ _ _ _ hp with rfl | hp'
        · apply aggWF_updateAgg
          cases hmg : mapGet m sym with
          | none => exact Or.inl rfl
          | some a => exact Or.inr (h (sym, a) (mapGet_mem m sym a hmg))
        · exact h p hp'

theorem keys_mapSet (m : AggMap) (k : String) (v : TickerAgg) :
    (mapSet m k v).map Prod.fst =
      if k ∈ m.map Prod.fst then m.map Prod.fst else m.map Prod.fst ++ [k] := by
  induction m with
  | nil => simp [mapSet]
  | cons p rest ih =>
    obtain ⟨k₀, v₀⟩ := p
    by_cases h₀ : k₀ = k
    · subst h₀
      simp [mapSet]
    · simp only [mapSet, if_neg h₀, List.map_cons, ih]
      by_cases hmem : k ∈ rest.map Prod.fst
      · simp [hmem, Ne.symm h₀]
      · simp [hmem, Ne.symm h₀]

theorem nodup_keys_aggStep (m : AggMap) (e : MentionRecord)
    (h : (m.map Prod.fst).Nodup) : ((aggStep m e).map Prod.fst).Nodup := by
  unfold aggStep
  cases hsym : symOf e with
  | none => exact h
  | some sym =>
    cases hts : e.timestamp with
    | none => exact h
    | some ts =>
      rw [keys_mapSet]
      by_cases hmem : sym ∈ m.map Prod.fst
      · simpa [hmem] using h
      · simp only [hmem, if_neg, not_false_iff]
        rw [List.nodup_append]
        exact ⟨h, List.nodup_singleton _, by simpa using hmem⟩

theorem nodup_keys_foldl (l : List MentionRecord) (m : AggMap)
    (h : (m.map Prod.fst).Nodup) : (((l.foldl aggStep m)).map Prod.fst).Nodup := by
  induction l generalizing m with
  | nil => simpa using h
  | cons e rest ih =>
    rw [List.foldl_cons]
    exact ih _ (nodup_keys_aggStep m e h)

theorem mapGet_isSome_iff_mem_keys (m : AggMap) (k : String) :
    (mapGet m k).isSome = true ↔ k ∈ m.map Prod.fst := by
  induction m with
  | nil => simp [mapGet]
  | cons p rest ih =>
    obtain ⟨k₀, v₀⟩ := p
    by_cases h₀ : k₀ = k
    · subst h₀
      simp [mapGet, List.find?_cons_of_pos]
    · rw [mapGet, List.find?_cons_of_neg _ (by simp [h₀])]
      rw [show ((List.find? (fun p => p.1 = k) rest).map (·.2)).isSome = (mapGet rest k).isSome
        from rfl]
      rw [ih]
      simp [Ne.symm h₀]

/-- C7 — every aggregate entry has a set `firstTs` not exceeding `lastTs`,
the ticker map has no duplicate keys (exactly one aggregate per distinct
uppercased ticker), and a key is present exactly when some record of the
selected UTC month carries that uppercased ticker. -/
theorem c7_aggregate_invariants (entries : List MentionRecord) (year month : Int) :
    (∀ p ∈ (buildMonthAgg entries year month).1,
        ∃ f, p.2.firstTs = some f ∧ f ≤ p.2.lastTs)
    ∧ ((buildMonthAgg entries year month).1.map Prod.fst).Nodup
    ∧ (∀ T, T ∈ (buildMonthAgg entries year month).1.map Prod.fst ↔
        ∃ e ∈ entries, qualifies year month e = true ∧ symOf e = some T) := by
  rw [byTicker_eq]
  refine ⟨aggWF_foldl _ [] (by simp), nodup_keys_foldl _ [] (by simp), ?_⟩
  intro T
  rw [← mapGet_isSome_iff_mem_keys, mapGet_foldl_isSome]
  constructor
  · rintro (hs | ⟨e, he, hk⟩)
    · simp [mapGet] at hs
    · unfold hitsKey at hk
      rw [Bool.and_eq_true, beq_iff_eq] at hk
      exact ⟨e, (List.mem_filter.mp he).1, (List.mem_filter.mp he).2, hk.1⟩
  · rintro ⟨e, he, hq, hsym⟩
    right
    refine ⟨e, List.mem_filter.mpr ⟨he, hq⟩, ?_⟩
    unfold hitsKey
    rw [hsym, qualifies_timestamp_isSome year month e hq]
    simp

/-- Witness for `c7_aggregate_invariants`: the single aggregate produced for
two same-month records has its first timestamp at or before its last. -/
theorem c7_aggregate_invariants_witness :
    ∃ f, ((⟨2, some 0, "L1", "u1", "Ann", 1000, "L2"⟩ : TickerAgg)).firstTs = some f
      ∧ f ≤ ((⟨2, some 0, "L1", "u1", "Ann", 1000, "L2"⟩ : TickerAgg)).lastTs :=
  (c7_aggregate_invariants
      [⟨some "xyz", some 0, some "L1", some ⟨some "u1", some "Ann"⟩⟩,
       ⟨some "XYZ", some 1000, some "L2", some ⟨some "u2", some "Bo"⟩⟩] 1970 1).1
    ("XYZ", ⟨2, some 0, "L1", "u1", "Ann", 1000, "L2"⟩) (by decide)

/- ======================= string order bridge ======================= -/

theorem strLtB_iff : ∀ l1 l2 : List Char, strLtB l1 l2 = true ↔ List.Lex (· < ·) l1 l2 := by
  intro l1
  induction l1 with
  | nil =>
    intro l2
    cases l2 with
    | nil =>
      simp only [strLtB, Bool.false_eq_true, false_iff]
      intro h; cases h
    | cons d ds =>
      simp only [strLtB, true_iff]
      exact List.Lex.nil
  | cons c cs ih =>
    intro l2
    cases l2 with
    | nil =>
      simp only [strLtB, Bool.false_eq_true, false_iff]
      intro h; cases h
    | cons d ds =>
      simp only [strLtB]
      by_cases hcd : c < d
      · simp only [hcd, if_pos, true_iff]
        exact List.Lex.rel hcd
      · by_cases hdc : d < c
        · simp only [hcd, hdc, if_neg, if_pos, not_false_iff, Bool.false_eq_true, false_iff]
          intro h
          cases h with
          | rel h => exact absurd h hcd
          | cons h => exact absurd hdc (lt_irrefl _)
        · have hedc : c = d := le_antisymm (not_lt.mp hdc) (not_lt.mp hcd)
          subst hedc
          simp only [hcd, if_neg, not_false_iff, ih ds]
          constructor
          · intro h; exact List.Lex.cons h
          · intro h
            cases h with
            | rel h => exact absurd h hcd
            | cons h => exact h

theorem jsLt_iff (a b : String) : jsLt a b = true ↔ a < b := by
  rw [String.lt_iff_toList_lt]
  exact strLtB_iff a.data b.data

theorem jsGeB_iff (a b : String) : jsGeB a b = true ↔ b ≤ a := by
  unfold jsGeB
  rw [Bool.not_eq_true']
  rw [← Bool.not_eq_true (jsLt a b), jsLt_iff]
  exact not_lt

instance : IsTotal String (fun a b => jsGeB a b = true) :=
  ⟨fun a b => by
    rw [jsGeB_iff, jsGeB_iff]
    exact le_total b a⟩

instance : IsTrans String (fun a b => jsGeB a b = true) :=
  ⟨fun a b c hab hbc => by
    rw [jsGeB_iff] at *
    exact le_trans hbc hab⟩

/- ======================= available-months lemmas ======================= -/

theorem nodup_setInsert (s : List String) (k : String) (h : s.Nodup) :
    (setInsert s k).Nodup := by
  unfold setInsert
  by_cases hm : k ∈ s
  · simpa [hm] using h
  · simp only [hm, if_neg, not_false_iff]
    rw [List.nodup_append]
    exact ⟨h, List.nodup_singleton _, by simpa using hm⟩

theorem mem_setInsert (s : List String) (k x : String) :
    x ∈ setInsert s k ↔ x ∈ s ∨ x = k := by
  unfold setInsert
  by_cases hm : k ∈ s
  · simp only [hm, if_pos]
    constructor
    · exact Or.inl
    · rintro (h | rfl)
      · exact h
      · exact hm
  · simp [hm]

theorem monthsFold_nodup (entries : List MentionRecord) (s : List String) (h : s.Nodup) :
    (entries.foldl (fun s e => setInsert s (monthKeyOf e)) s).Nodup := by
  induction entries generalizing s with
  | nil => simpa using h
  | cons e rest ih => exact ih _ (nodup_setInsert s (monthKeyOf e) h)

theorem mem_monthsFold (entries : List MentionRecord) (s : List String) (x : String) :
    x ∈ entries.foldl (fun s e => setInsert s (monthKeyOf e)) s ↔
      x ∈ s ∨ ∃ e ∈ entries, monthKeyOf e = x := by
  induction entries generalizing s with
  | nil => simp
  | cons e rest ih =>
    rw [List.foldl_cons, ih, mem_setInsert]
    constructor
    · rintro ((hs | rfl) | ⟨e', he', hk⟩)
      · exact Or.inl hs
      · exact Or.inr ⟨e, List.mem_cons_self _ _, rfl⟩
      · exact Or.inr ⟨e', List.mem_cons_of_mem _ he', hk⟩
    · rintro (hs | ⟨e', he', hk⟩)
      · exact Or.inl (Or.inl hs)
      · rcases List.mem_cons.mp he' with rfl | he''
        · exact Or.inl (Or.inr hk.symm)
        · exact Or.inr ⟨e', he'', hk⟩

/-- C9 — `availableMonths` is strictly descending (hence duplicate-free) and
every returned key is the UTC-derived month key of some stored entry. -/
theorem c9_available_months_descending (entries : List MentionRecord) :
    (getAvailableMonths entries).Pairwise (fun a b => b < a)
    ∧ ∀ k ∈ getAvailableMonths entries, ∃ e ∈ entries, monthKeyOf e = k := by
  unfold getAvailableMonths
  set months := entries.foldl (fun s e => setInsert s (monthKeyOf e)) [] with hmonths
  have hperm := List.perm_insertionSort (fun a b => jsGeB a b = true) months
  have hsorted := List.sorted_insertionSort (fun a b => jsGeB a b = true) months
  have hnodup : (List.insertionSort (fun a b => jsGeB a b = true) months).Nodup :=
    hperm.nodup_iff.mpr (monthsFold_nodup entries [] (List.nodup_nil))
  constructor
  · have hand := List.Pairwise.and hsorted hnodup
    apply hand.imp
    intro a b hab
    obtain ⟨hge, hne⟩ := hab
    rw [jsGeB_iff] at hge
    exact lt_of_le_of_ne hge (Ne.symm hne)
  · intro k hk
    have : k ∈ months := hperm.mem_iff.mp hk
    rcases (mem_monthsFold entries [] k).mp this with h | h
    · cases h
    · exact h

/-- Witness for `c9_available_months_descending`: the key listed for a store
with one malformed-timestamp entry is that entry's key. -/
theorem c9_available_months_descending_witness :
    ∃ e ∈ [(⟨some "A", none, none, none⟩ : MentionRecord)], monthKeyOf e = "NaN-NaN" :=
  (c9_available_months_descending [⟨some "A", none, none, none⟩]).2 "NaN-NaN" (by decide)

/-- C10 — an entry whose timestamp string does not parse contributes the
literal `"NaN-NaN"` key to `availableMonths`, while the month aggregation
filter excludes the same entry from every month's aggregate. -/
theorem c10_malformed_timestamp_key :
    getAvailableMonths [(⟨some "A", none, none, none⟩ : MentionRecord)] = ["NaN-NaN"]
    ∧ (buildMonthAgg [(⟨some "A", none, none, none⟩ : MentionRecord)] 2024 3).1 = [] := by
  constructor
  · decide
  · decide

/- ======================= ticker normalization (C3) ======================= -/

/-- C3 counterexample — the aggregation does NOT trim: tickers `" abc"` and
`"ABC"` in the same month produce two distinct aggregates (keys `" ABC"` and
`"ABC"`, the latter counting 1, not 2), and a whitespace-only ticker `" "` is
kept rather than discarded. -/
theorem c3_no_trim_counterexample :
    ((buildMonthAgg [(⟨some " abc", some 0, none, none⟩ : MentionRecord),
        ⟨some "ABC", some 1000, none, none⟩] 1970 1).1.map Prod.fst = [" ABC", "ABC"])
    ∧ ((mapGet (buildMonthAgg [(⟨some " abc", some 0, none, none⟩ : MentionRecord),
        ⟨some "ABC", some 1000, none, none⟩] 1970 1).1 "ABC").map (·.countMTD) = some 1)
    ∧ ((buildMonthAgg [(⟨some " ", some 0, none, none⟩ : MentionRecord)] 1970 1).1.map
        Prod.fst = [" "]) := by
  refine ⟨by decide, by decide, by decide⟩

/-- C3 (amended) — normalization is uppercasing only (no trim): a record
whose ticker is absent or the empty string is discarded without affecting the
aggregation, and records whose tickers agree up to letter case are keyed
identically (collapse into one aggregate), while surrounding whitespace is
preserved in the key. -/
theorem c3_uppercase_only_normalization (year month : Int) (e : MentionRecord)
    (entries : List MentionRecord) (he : e.ticker = none ∨ e.ticker = some "")
    (t₁ t₂ : String) (hU : jsToUpper t₁ = jsToUpper t₂) (e₁ e₂ : MentionRecord)
    (h₁ : e₁.ticker = some t₁) (h₂ : e₂.ticker = some t₂) :
    buildMonthAgg (e :: entries) year month = buildMonthAgg entries year month
    ∧ symOf e₁ = symOf e₂ := by
  constructor
  · have hsym : symOf e = none := by
      rcases he with h | h <;> simp [symOf, h, jsToUpper]
    unfold buildMonthAgg
    dsimp only
    rw [List.filter_cons]
    cases hq : isInMonthOpt e.timestamp (startOfMonthUTC year month) with
    | false => simp
    | true =>
      simp only [if_pos]
      rw [List.foldl_cons]
      rw [show aggStep [] e = [] by unfold aggStep; rw [hsym]]
  · unfold symOf
    rw [h₁, h₂]
    dsimp only
    rw [hU]

/-- Witness for `c3_uppercase_only_normalization` at concrete records. -/
theorem c3_uppercase_only_normalization_witness :
    buildMonthAgg [(⟨some "", some 0, none, none⟩ : MentionRecord),
        ⟨some "abc", some 5, none, none⟩] 1970 1
      = buildMonthAgg [(⟨some "abc", some 5, none, none⟩ : MentionRecord)] 1970 1
    ∧ symOf (⟨some "aBc", some 5, none, none⟩ : MentionRecord)
      = symOf (⟨some "Abc", some 7, none, none⟩ : MentionRecord) :=
  c3_uppercase_only_normalization 1970 1 _ _ (Or.inr rfl) "aBc" "Abc" (by decide) _ _ rfl rfl

/- ======================= range buckets (C6) ======================= -/

/-- C6 — elapsed days are `max(1, floor((now − fromTs)/86400000))` (with the
JS falsy fallback of `fromTs` to `now`) and the range bucket follows the
30/62/370-day thresholds. -/
theorem c6_range_buckets (now : Int) (fromTs : Option Int) :
    chartDaysOf now fromTs =
      max 1 (Int.fdiv (now - (match fromTs with
        | none => now
        | some t => if t = 0 then now else t)) 86400000)
    ∧ (chartDaysOf now fromTs ≤ 30 → chartRange (chartDaysOf now fromTs) = "1mo")
    ∧ (30 < chartDaysOf now fromTs → chartDaysOf now fromTs ≤ 62 →
        chartRange (chartDaysOf now fromTs) = "3mo")
    ∧ (62 < chartDaysOf now fromTs → chartDaysOf now fromTs ≤ 370 →
        chartRange (chartDaysOf now fromTs) = "1y")
    ∧ (370 < chartDaysOf now fromTs → chartRange (chartDaysOf now fromTs) = "5y") := by
  refine ⟨rfl, ?_, ?_, ?_, ?_⟩
  · intro h
    unfold chartRange
    rw [if_pos h]
  · intro h1 h2
    unfold chartRange
    rw [if_neg (by omega), if_pos h2]
  · intro h1 h2
    unfold chartRange
    rw [if_neg (by omega), if_neg (by omega), if_pos h2]
  · intro h
    unfold chartRange
    rw [if_neg (by omega), if_neg (by omega), if_neg (by omega)]

/-- Witness for `c6_range_buckets`: 39 elapsed days select the 3-month
bucket. -/
theorem c6_range_buckets_witness :
    chartDaysOf 3456000000 (some 86400000) ≤ 62 ∧
      chartRange (chartDaysOf 3456000000 (some 86400000)) = "3mo" :=
  ⟨by decide, (c6_range_buckets 3456000000 (some 86400000)).2.2.1 (by decide) (by decide)⟩

/- ======================= resolver positivity (C2) ======================= -/

/-- C2 counterexample — the resolver can succeed while returning a
non-positive basis: with a finite negative open and a positive close in mode
`"oc"`, the guard passes (one candidate is positive) but the returned basis
is the negative open. -/
theorem c2_nonpositive_basis_counterexample :
    resolveFromChart utcTzDb
        { timestamps := [0], opens := [some (-5)], closes := [some 10],
          lastClose := some 10, lastPrice := some 1, tz := "UTC" }
        Anchor.month Mode.oc 0 1970 1
      = Except.ok (some (-5), some 1)
    ∧ ¬((-5 : ℚ) > 0) := by
  constructor
  · rfl
  · norm_num

/-- Helper: a `??`-selection out of two candidates, at least one of which is
positive, is non-null (in either preference order). -/
theorem isSome_jsCoalesce_of_gt (a b : Option ℚ) (h : (jsGt0 a || jsGt0 b) = true) :
    (jsCoalesce a b).isSome = true ∧ (jsCoalesce b a).isSome = true := by
  cases a <;> cases b <;> simp_all [jsGt0, jsCoalesce]

/-- C2 (amended) — the resolver succeeds exactly when some basis candidate
and some latest candidate are positive; on success the returned basis and
latest are non-null (chosen by nullish preference), but need not themselves
be positive. -/
theorem c2_resolver_positivity (db : TzDb) (ch : Chart) (anchor : Anchor) (mode : Mode)
    (mentionTs year month : Int) :
    ((∃ p, resolveFromChart db ch anchor mode mentionTs year month = Except.ok p) ↔
      (jsGt0 (gapFill ch.opens (pickStartIndex db ch anchor mentionTs year month))
        || jsGt0 (gapFill ch.closes (pickStartIndex db ch anchor mentionTs year month))) = true
      ∧ (jsGt0 ch.lastPrice || jsGt0 ch.lastClose) = true)
    ∧ ∀ b l, resolveFromChart db ch anchor mode mentionTs year month = Except.ok (b, l) →
        b.isSome = true ∧ l.isSome = true := by
  constructor
  · unfold resolveFromChart
    dsimp only
    split_ifs with h1 h2
    · constructor
      · rintro ⟨p, hp⟩; cases hp
      · rintro ⟨hx, -⟩
        exfalso
        rw [Bool.and_eq_true, Bool.not_eq_true', Bool.not_eq_true'] at h1
        rw [Bool.or_eq_true] at hx
        rcases hx with hx | hx
        · rw [h1.1] at hx; cases hx
        · rw [h1.2] at hx; cases hx
    · constructor
      · rintro ⟨p, hp⟩; cases hp
      · rintro ⟨-, hx⟩
        exfalso
        rw [Bool.and_eq_true, Bool.not_eq_true', Bool.not_eq_true'] at h2
        rw [Bool.or_eq_true] at hx
        rcases hx with hx | hx
        · rw [h2.1] at hx; cases hx
        · rw [h2.2] at hx; cases hx
    · refine iff_of_true ⟨_, rfl⟩ ⟨?_, ?_⟩
      · cases hA : jsGt0 (gapFill ch.opens (pickStartIndex db ch anchor mentionTs year month)) <;>
          cases hB : jsGt0 (gapFill ch.closes (pickStartIndex db ch anchor mentionTs year month)) <;>
          simp_all
      · cases hC : jsGt0 ch.lastPrice <;> cases hD : jsGt0 ch.lastClose <;> simp_all
  · intro b l h
    unfold resolveFromChart at h
    dsimp only at h
    by_cases h1 : (!jsGt0 (gapFill ch.opens (pickStartIndex db ch anchor mentionTs year month))
        && !jsGt0 (gapFill ch.closes (pickStartIndex db ch anchor mentionTs year month))) = true
    · rw [if_pos h1] at h; cases h
    · rw [if_neg h1] at h
      by_cases h2 : (!jsGt0 ch.lastPrice && !jsGt0 ch.lastClose) = true
      · rw [if_pos h2] at h; cases h
      · rw [if_neg h2] at h
        have h1' : (jsGt0 (gapFill ch.opens (pickStartIndex db ch anchor mentionTs year month))
            || jsGt0 (gapFill ch.closes (pickStartIndex db ch anchor mentionTs year month))) = true := by
          cases hA : jsGt0 (gapFill ch.opens (pickStartIndex db ch anchor mentionTs year month)) <;>
            cases hB : jsGt0 (gapFill ch.closes (pickStartIndex db ch anchor mentionTs year month)) <;>
            simp_all
        have h2' : (jsGt0 ch.lastPrice || jsGt0 ch.lastClose) = true := by
          cases hC : jsGt0 ch.lastPrice <;> cases hD : jsGt0 ch.lastClose <;> simp_all
        injection h with hp
        rw [Prod.mk.injEq] at hp
        obtain ⟨hb, hl⟩ := hp
        subst hb
        subst hl
        cases mode with
        | cc =>
          exact ⟨(isSome_jsCoalesce_of_gt _ _ h1').2, (isSome_jsCoalesce_of_gt _ _ h2').2⟩
        | oc =>
          exact ⟨(isSome_jsCoalesce_of_gt _ _ h1').1, (isSome_jsCoalesce_of_gt _ _ h2').1⟩

/-- Witness for `c2_resolver_positivity`: a successful resolution returns
non-null basis and latest. -/
theorem c2_resolver_positivity_witness :
    (some (10 : ℚ)).isSome = true ∧ (some (12 : ℚ)).isSome = true :=
  (c2_resolver_positivity utcTzDb
      { timestamps := [0], opens := [some 10], closes := [some 11],
        lastClose := some 11, lastPrice := some 12, tz := "UTC" }
      Anchor.month Mode.oc 0 1970 1).2 (some 10) (some 12) rfl

/- ======================= basis index selection (C5) ======================= -/

/-- C5 counterexample — when the preferred field has no finite value at all,
the resolver falls back to the other field: with every open `null` and a
positive close, mode `"oc"` succeeds with the close as basis, so the basis is
not "the open at that index or the nearest later finite open". -/
theorem c5_cross_field_fallback_counterexample :
    resolveFromChart utcTzDb
        { timestamps := [0], opens := [none], closes := [some 5],
          lastClose := some 5, lastPrice := some 1, tz := "UTC" }
        Anchor.month Mode.oc 0 1970 1
      = Except.ok (some 5, some 1)
    ∧ gapFill [none] (pickStartIndex utcTzDb
        { timestamps := [0], opens := [none], closes := [some 5],
          lastClose := some 5, lastPrice := some 1, tz := "UTC" }
        Anchor.month 0 1970 1) = none := by
  constructor
  · rfl
  · rfl

/-- C5 (amended) — the basis index is the first position (in scan order over
the ascending timestamps) whose zone-local date compares `≥` the target
anchor date, defaulting to 0 when no such position exists; the basis is the
mode's preferred field at that index with same-field forward gap-fill,
falling back to the gap-filled other field when the preferred field has no
value at all. -/
theorem c5_basis_index_selection (db : TzDb) (ch : Chart) (anchor : Anchor) (mode : Mode)
    (mentionTs year month : Int) :
    (∀ j (hj : j < ch.timestamps.length), j < pickStartIndex db ch anchor mentionTs year month →
        jsGeB (localYMD db (ch.timestamps.get ⟨j, hj⟩) ch.tz)
          (pickTargetYMD db ch anchor mentionTs year month) = false)
    ∧ ((∃ j, ∃ hj : j < ch.timestamps.length,
          jsGeB (localYMD db (ch.timestamps.get ⟨j, hj⟩) ch.tz)
            (pickTargetYMD db ch anchor mentionTs year month) = true) →
        ∃ hidx : pickStartIndex db ch anchor mentionTs year month < ch.timestamps.length,
          jsGeB (localYMD db
              (ch.timestamps.get ⟨pickStartIndex db ch anchor mentionTs year month, hidx⟩) ch.tz)
            (pickTargetYMD db ch anchor mentionTs year month) = true)
    ∧ ((∀ j (hj : j < ch.timestamps.length),
          jsGeB (localYMD db (ch.timestamps.get ⟨j, hj⟩) ch.tz)
            (pickTargetYMD db ch anchor mentionTs year month) = false) →
        pickStartIndex db ch anchor mentionTs year month = 0)
    ∧ (∀ b l, resolveFromChart db ch anchor mode mentionTs year month = Except.ok (b, l) →
        b = (match mode with
          | Mode.oc =>
            jsCoalesce (gapFill ch.opens (pickStartIndex db ch anchor mentionTs year month))
              (gapFill ch.closes (pickStartIndex db ch anchor mentionTs year month))
          | Mode.cc =>
            jsCoalesce (gapFill ch.closes (pickStartIndex db ch anchor mentionTs year month))
              (gapFill ch.opens (pickStartIndex db ch anchor mentionTs year month)))) := by
  refine ⟨?_, ?_, ?_, ?_⟩
  · intro j hj hlt
    cases hf : ch.timestamps.findIdx?
        (fun t => jsGeB (localYMD db t ch.tz) (pickTargetYMD db ch anchor mentionTs year month)) with
    | none =>
      have h0 : pickStartIndex db ch anchor mentionTs year month = 0 := by
        unfold pickStartIndex
        rw [hf]
      rw [h0] at hlt
      omega
    | some i =>
      have hpi : pickStartIndex db ch anchor mentionTs year month = i := by
        unfold pickStartIndex
        rw [hf]
      rw [hpi] at hlt
      obtain ⟨hilen, hfi⟩ := List.findIdx?_eq_some_iff_findIdx_eq.mp hf
      rw [List.get_eq_getElem]
      exact @List.not_of_lt_findIdx _
        (fun t => jsGeB (localYMD db t ch.tz) (pickTargetYMD db ch anchor mentionTs year month))
        ch.timestamps j (by rw [hfi]; exact hlt)
  · rintro ⟨j, hj, hp⟩
    cases hf : ch.timestamps.findIdx?
        (fun t => jsGeB (localYMD db t ch.tz) (pickTargetYMD db ch anchor mentionTs year month)) with
    | none =>
      exfalso
      have := List.findIdx?_eq_none_iff.mp hf
      have h2 := this (ch.timestamps.get ⟨j, hj⟩) (List.get_mem _ _ _)
      rw [hp] at h2
      cases h2
    | some i =>
      obtain ⟨hilen, hfi⟩ := List.findIdx?_eq_some_iff_findIdx_eq.mp hf
      have hpi : pickStartIndex db ch anchor mentionTs year month = i := by
        unfold pickStartIndex
        rw [hf]
      rw [hpi]
      refine ⟨hilen, ?_⟩
      rw [List.get_eq_getElem]
      subst hfi
      exact @List.findIdx_getElem _
        (fun t => jsGeB (localYMD db t ch.tz) (pickTargetYMD db ch anchor mentionTs year month))
        ch.timestamps hilen
  · intro hall
    cases hf : ch.timestamps.findIdx?
        (fun t => jsGeB (localYMD db t ch.tz) (pickTargetYMD db ch anchor mentionTs year month)) with
    | none =>
      unfold pickStartIndex
      rw [hf]
    | some i =>
      exfalso
      obtain ⟨hilen, hfi⟩ := List.findIdx?_eq_some_iff_findIdx_eq.mp hf
      have hp : jsGeB (localYMD db (ch.timestamps.get ⟨i, hilen⟩) ch.tz)
          (pickTargetYMD db ch anchor mentionTs year month) = true := by
        rw [List.get_eq_getElem]
        subst hfi
        exact @List.findIdx_getElem _
          (fun t => jsGeB (localYMD db t ch.tz) (pickTargetYMD db ch anchor mentionTs year month))
          ch.timestamps hilen
      rw [hall i hilen] at hp
      cases hp
  · intro b l h
    unfold resolveFromChart at h
    dsimp only at h
    by_cases h1 : (!jsGt0 (gapFill ch.opens (pickStartIndex db ch anchor mentionTs year month))
        && !jsGt0 (gapFill ch.closes (pickStartIndex db ch anchor mentionTs year month))) = true
    · rw [if_pos h1] at h; cases h
    · rw [if_neg h1] at h
      by_cases h2 : (!jsGt0 ch.lastPrice && !jsGt0 ch.lastClose) = true
      · rw [if_pos h2] at h; cases h
      · rw [if_neg h2] at h
        injection h with hp
        rw [Prod.mk.injEq] at hp
        obtain ⟨hb, -⟩ := hp
        cases mode <;> exact hb.symm

/-- Witness for `c5_basis_index_selection`: a series lying entirely before
the month anchor defaults to index 0. -/
theorem c5_basis_index_selection_witness :
    pickStartIndex utcTzDb
      { timestamps := [0], opens := [some 7], closes := [some 8],
        lastClose := some 8, lastPrice := some 9, tz := "UTC" }
      Anchor.month 0 2024 3 = 0 :=
  (c5_basis_index_selection utcTzDb
    { timestamps := [0], opens := [some 7], closes := [some 8],
      lastClose := some 8, lastPrice := some 9, tz := "UTC" }
    Anchor.month Mode.oc 0 2024 3).2.2.1 (by decide)

/- ======================= cached resolution (C8) ======================= -/

/-- C8 — when the series for the computed key is already cached, resolution
does not modify the cache and is idempotent: resolving twice with identical
arguments yields identical `{basis, latest}` results and cache states. -/
theorem c8_cached_resolution_idempotent (db : TzDb) (oracle : Oracle) (now : Int)
    (cache : Cache) (symbol : String) (mentionTs : Int) (anchor : Anchor) (mode : Mode)
    (year month : Int)
    (h : (cacheGet cache (chartCacheKey symbol now (some (match anchor with
        | Anchor.month => startOfMonthUTC year month
        | Anchor.mention => mentionTs)))).isSome = true) :
    (fetchBasisAndLatest db oracle now cache symbol mentionTs anchor mode year month).2 = cache
    ∧ fetchBasisAndLatest db oracle now
        ((fetchBasisAndLatest db oracle now cache symbol mentionTs anchor mode year month).2)
        symbol mentionTs anchor mode year month
      = fetchBasisAndLatest db oracle now cache symbol mentionTs anchor mode year month := by
  have hit : ∀ (fromTs : Option Int) (ch : Chart),
      cacheGet cache (chartCacheKey symbol now fromTs) = some ch →
      getYahooChart oracle now cache symbol fromTs = (Except.ok ch, cache) := by
    intro fromTs ch hch
    unfold getYahooChart
    dsimp only
    rw [show symbol ++ "|" ++ chartRange (chartDaysOf now fromTs)
      = chartCacheKey symbol now fromTs from rfl, hch]
  cases anchor with
  | month =>
    obtain ⟨ch, hch⟩ := Option.isSome_iff_exists.mp h
    have hfetch : fetchBasisAndLatest db oracle now cache symbol mentionTs Anchor.month mode
          year month
        = (resolveFromChart db ch Anchor.month mode mentionTs year month, cache) := by
      unfold fetchBasisAndLatest
      dsimp only
      rw [hit (some (startOfMonthUTC year month)) ch hch]
    rw [hfetch]
    exact ⟨rfl, hfetch⟩
  | mention =>
    obtain ⟨ch, hch⟩ := Option.isSome_iff_exists.mp h
    have hfetch : fetchBasisAndLatest db oracle now cache symbol mentionTs Anchor.mention mode
          year month
        = (resolveFromChart db ch Anchor.mention mode mentionTs year month, cache) := by
      unfold fetchBasisAndLatest
      dsimp only
      rw [hit (some mentionTs) ch hch]
    rw [hfetch]
    exact ⟨rfl, hfetch⟩

/-- Witness for `c8_cached_resolution_idempotent`: a one-entry cache is hit
and left unchanged. -/
theorem c8_cached_resolution_idempotent_witness :
    (fetchBasisAndLatest utcTzDb failOracle 864000000 cacheFixture
        "AAPL" 0 Anchor.month Mode.oc 1970 1).2 = cacheFixture
    ∧ fetchBasisAndLatest utcTzDb failOracle 864000000
        ((fetchBasisAndLatest utcTzDb failOracle 864000000 cacheFixture
          "AAPL" 0 Anchor.month Mode.oc 1970 1).2)
        "AAPL" 0 Anchor.month Mode.oc 1970 1
      = fetchBasisAndLatest utcTzDb failOracle 864000000 cacheFixture
        "AAPL" 0 Anchor.month Mode.oc 1970 1 :=
  c8_cached_resolution_idempotent utcTzDb failOracle 864000000 cacheFixture
    "AAPL" 0 Anchor.month Mode.oc 1970 1 (by decide)

/- ======================= computeGainers (C4) ======================= -/

theorem gainWorker_isNone (resolve : TickerInfo → Except String (Option ℚ × Option ℚ))
    (i : TickerInfo) : (gainWorker resolve i).isNone = !(resolve i).isOk := by
  unfold gainWorker
  cases h : resolve i with
  | error e => rfl
  | ok p =>
    obtain ⟨b, l⟩ := p
    rfl

theorem length_filterMap_add_none (f : α → Option β) (l : List α) :
    (l.filterMap f).length + (l.filter (fun a => (f a).isNone)).length = l.length := by
  induction l with
  | nil => rfl
  | cons a rest ih =>
    cases h : f a with
    | none =>
      rw [List.filterMap_cons_none h, List.filter_cons]
      simp only [h, Option.isNone_none, if_pos, List.length_cons]
      omega
    | some b =>
      rw [List.filterMap_cons_some h, List.filter_cons]
      simp only [h, Option.isNone_some, List.length_cons, Bool.false_eq_true, if_neg,
        not_false_iff]
      omega

/-- C4 — with the batch inside the (clamped) ticker limit, exactly one item
whose resolver fails and all others succeeding, `computeGainers` returns a
sequence of length input−1 sorted descending by `pct` (failure is isolated to
the failing item, never an exception); and the empty batch yields the empty
sequence. -/
theorem c4_compute_gainers_isolated_failure
    (resolve : TickerInfo → Except String (Option ℚ × Option ℚ))
    (items : List TickerInfo) (opts : GainOpts)
    (hlen : (items.length : Int) ≤ effLimit opts)
    (hone : (items.filter (fun i => !(resolve i).isOk)).length = 1) :
    (computeGainers resolve items opts).length = items.length - 1
    ∧ List.Pairwise (fun a b => b.pct ≤ a.pct) (computeGainers resolve items opts)
    ∧ computeGainers resolve [] opts = [] := by
  have hne : ¬(items.isEmpty = true) := by
    cases items with
    | nil => simp at hone
    | cons a l => simp
  have hcg : computeGainers resolve items opts =
      List.insertionSort (fun a b => b.pct ≤ a.pct)
        ((items.map (gainWorker resolve)).filterMap id) := by
    unfold computeGainers
    rw [if_neg hne]
    dsimp only
    rw [show (if opts.limitTickers ≤ 0 then (50 : Int) else opts.limitTickers)
      = effLimit opts from rfl]
    rw [List.take_of_length_le (by omega)]
  refine ⟨?_, ?_, rfl⟩
  · rw [hcg]
    rw [(List.perm_insertionSort (fun a b : GainResult => b.pct ≤ a.pct)
      ((items.map (gainWorker resolve)).filterMap id)).length_eq]
    rw [List.filterMap_map]
    rw [show (id ∘ gainWorker resolve) = gainWorker resolve from rfl]
    have hsum := length_filterMap_add_none (gainWorker resolve) items
    have hfeq : items.filter (fun a => (gainWorker resolve a).isNone)
        = items.filter (fun i => !(resolve i).isOk) := by
      apply List.filter_congr
      intro x hx
      rw [gainWorker_isNone]
    rw [hfeq, hone] at hsum
    omega
  · rw [hcg]
    exact List.sorted_insertionSort _ _

/-- Witness for `c4_compute_gainers_isolated_failure`: a two-item batch whose
second item's resolver throws. -/
theorem c4_compute_gainers_isolated_failure_witness :
    (computeGainers
        (fun i => if i.symbol = "A" then Except.ok (some 10, some 20) else Except.error "bad")
        [⟨"A", 0, "", "", ""⟩, ⟨"B", 0, "", "", ""⟩] ⟨50, 3, Anchor.month, Mode.oc⟩).length
      = [(⟨"A", 0, "", "", ""⟩ : TickerInfo), ⟨"B", 0, "", "", ""⟩].length - 1
    ∧ List.Pairwise (fun a b => b.pct ≤ a.pct)
      (computeGainers
        (fun i => if i.symbol = "A" then Except.ok (some 10, some 20) else Except.error "bad")
        [⟨"A", 0, "", "", ""⟩, ⟨"B", 0, "", "", ""⟩] ⟨50, 3, Anchor.month, Mode.oc⟩)
    ∧ computeGainers
        (fun i => if i.symbol = "A" then Except.ok (some 10, some 20) else Except.error "bad")
        [] ⟨50, 3, Anchor.month, Mode.oc⟩ = [] :=
  c4_compute_gainers_isolated_failure
    (fun i => if i.symbol = "A" then Except.ok (some 10, some 20) else Except.error "bad")
    [⟨"A", 0, "", "", ""⟩, ⟨"B", 0, "", "", ""⟩] ⟨50, 3, Anchor.month, Mode.oc⟩
    (by decide) (by decide)
